import Mathlib

/-!
Verification development for the WebAI2API request-routing engine.

Shallow embedding of:
- `src/backend/failover.js` (failover executor),
- the `Worker` class (model routing, merge failover, busy counter,
  model listing, image policy, initialization),
- `src/server/http/respond.js` (response writers),
- the configuration loader's `resolveProxyConfig`.

The adapter registry and the error classifier live outside the sources
under verification, so they are abstract parameters here: a `Registry`
is a record of the functions the Worker consults, and error
classification is irrelevant to the executor's control flow (it only
feeds a debug log in the source).
-/

namespace WebAI

/-! ## JavaScript-semantics helpers -/

/-- Truthiness of an optional error string, as JS `if (result.error)`:
`undefined`/`null` and the empty string are falsy. -/
def jsTruthy : Option String → Bool
  | none => false
  | some s => !(s == "")

/-- String interpolation of a possibly-null value, as JS template
literals render `null` as the text `"null"`. -/
def jsStr : Option String → String
  | none => "null"
  | some s => s

/-- JS `x || d` on numbers: `undefined` and `0` are falsy and yield the
default. -/
def jsOrNat (v : Option Nat) (d : Nat) : Nat :=
  match v with
  | none => d
  | some 0 => d
  | some n => n

/-- JS `x || d` on strings: `undefined` and `""` are falsy. -/
def jsOrStr (v : Option String) (d : String) : String :=
  match v with
  | none => d
  | some s => if s == "" then d else s

/-- JS `s.includes('/')`. -/
def hasSlash (s : String) : Bool := s.data.contains '/'

/-- Full split of a character list on a separator (the segments, in
order), mirroring JS `String.prototype.split`. -/
def splitChars (sep : Char) : List Char → List Char → List (List Char)
  | [], acc => [acc.reverse]
  | c :: rest, acc =>
      if c = sep then acc.reverse :: splitChars sep rest []
      else splitChars sep rest (c :: acc)

/-- JS `s.split('/', 2)` exposed as the pair of the first two segments
(`split` with a limit truncates the full segment list). For a string
without a slash the second component is the empty string; every call
site in the source guards the split with an `includes('/')` check. -/
def jsSplit2 (s : String) : String × String :=
  let segs := splitChars '/' s.data []
  (String.mk (segs.headD []), String.mk ((segs.drop 1).headD []))

/-! ## Failover executor (`src/backend/failover.js`) -/

/-- Result object flowing through the failover machinery: an optional
`error` string, an optional stable `code`, an optional `retryable`
flag.  Success results are returned as-is, so the record stands for
the whole JS result object. -/
structure FoResult where
  error : Option String := none
  code : Option String := none
  retryable : Option Bool := none
  deriving DecidableEq, Repr

/-- One attempt either returns a result object or throws with a
message (the executor's `catch` stores `err.message || String(err)`). -/
inductive FoAttempt where
  | ret (r : FoResult)
  | thr (msg : String)
  deriving DecidableEq, Repr

/-- Whether an attempt takes the failure path of the executor loop:
a returned result with truthy `error`, or a throw. -/
def attemptFails : FoAttempt → Bool
  | .ret r => jsTruthy r.error
  | .thr _ => true

/-- The value the executor records into `lastError` for a failing
attempt. -/
def attErrOpt : FoAttempt → Option String
  | .ret r => r.error
  | .thr m => some m

/-- The result object of a non-throwing attempt (junk for a throw;
only consulted when `attemptFails` is false, which forces `ret`). -/
def attRes : FoAttempt → FoResult
  | .ret r => r
  | .thr _ => {}

/-- The all-candidates-failed result of `createFailoverExecutor.execute`. -/
def foExhaust (lastError : Option String) : FoResult :=
  { error := some ("所有候选都失败: " ++ jsStr lastError)
    code := some "FAILOVER_EXHAUSTED"
    retryable := some false }

/-- The attempt loop of `createFailoverExecutor.execute`: walk the
candidate list for at most `fuel = maxAttempts` iterations; a result
with falsy `error` is returned as-is, otherwise `lastError` is
updated and the loop advances (the source's retryability check only
emits a debug log and does not affect control flow).  The second
component records the candidates actually passed to `execute`. -/
def foGo (attempt : α → FoAttempt) : Nat → List α → Option String → FoResult × List α
  | 0, _, lastError => (foExhaust lastError, [])
  | _ + 1, [], lastError => (foExhaust lastError, [])
  | fuel + 1, c :: rest, _lastError =>
      match attempt c with
      | .ret r =>
          if jsTruthy r.error then
            let next := foGo attempt fuel rest r.error
            (next.1, c :: next.2)
          else (r, [c])
      | .thr m =>
          let next := foGo attempt fuel rest (some m)
          (next.1, c :: next.2)

/-- `createFailoverExecutor(options).execute(candidates, execute)` with
`maxRetries` already resolved (`options.maxRetries ?? RETRY.MAX_ATTEMPTS`;
`??` keeps an explicit `0`).  Returns the result together with the
trace of attempted candidates. -/
def failoverExecute (maxRetries : Nat) (candidates : List α)
    (attempt : α → FoAttempt) : FoResult × List α :=
  if candidates.isEmpty then ({ error := some "没有可用的候选" }, [])
  else
    let maxAttempts := if maxRetries = 0 then candidates.length
      else min (maxRetries + 1) candidates.length
    foGo attempt maxAttempts candidates none

/-! ## Worker model routing (`Worker` class) -/

/-- One entry of an adapter's model listing (`created` stands for the
fields carried through the object spread). -/
structure MEntry where
  id : String
  owned_by : String
  created : Nat := 0
  deriving DecidableEq, Repr

/-- The adapter registry, abstract: the functions the Worker consults.
The registry is populated at startup and immutable afterwards. -/
structure Registry where
  supportsModel : String → String → Bool
  getImagePolicy : String → String → String
  getModelsForAdapter : String → Option (List MEntry)
  hasAdapter : String → Bool

/-- The configuration-derived, immutable part of a Worker. -/
structure WorkerCfg where
  name : String
  type : String
  mergeTypes : List String := []
  deriving DecidableEq, Repr

/-- `registry.getModelsForAdapter(type)?.data || []`. -/
def dataOf (reg : Registry) (t : String) : List MEntry :=
  match reg.getModelsForAdapter t with
  | some l => l
  | none => []

/-- `Worker.supports(modelId)`. -/
def supports (w : WorkerCfg) (reg : Registry) (modelId : String) : Bool :=
  if w.type == "merge" then
    if w.mergeTypes.any (fun t => reg.supportsModel t modelId) then true
    else if hasSlash modelId then
      let st := jsSplit2 modelId
      if w.mergeTypes.contains st.1 then reg.supportsModel st.1 st.2
      else false
    else false
  else
    if hasSlash modelId then
      let st := jsSplit2 modelId
      if st.1 == w.type then reg.supportsModel w.type st.2
      else false
    else reg.supportsModel w.type modelId

/-- `Worker._getAdapterType(modelKey)` (for an empty `mergeTypes` the
source's `mergeTypes[0]` is `undefined`; modelled as `""`, and merge
workers are validated at load time to have a non-empty list). -/
def getAdapterType (w : WorkerCfg) (reg : Registry) (modelKey : String) : String :=
  if w.type == "merge" then
    if hasSlash modelKey then
      let st := jsSplit2 modelKey
      if w.mergeTypes.contains st.1 then st.1 else w.mergeTypes.headD ""
    else
      match w.mergeTypes.find? (fun t => reg.supportsModel t modelKey) with
      | some t => t
      | none => w.mergeTypes.headD ""
  else w.type

/-- `Worker._getCandidateTypes(modelKey)`: the ordered
`(type, modelId)` candidates for the merge failover loop. -/
def getCandidateTypes (w : WorkerCfg) (reg : Registry) (modelKey : String) :
    List (String × String) :=
  if hasSlash modelKey then
    let st := jsSplit2 modelKey
    if w.mergeTypes.contains st.1 && reg.supportsModel st.1 st.2 then
      [(st.1, st.2)]
    else []
  else
    (w.mergeTypes.filter (fun t => reg.supportsModel t modelKey)).map
      (fun t => (t, modelKey))

/-- `Worker._executeAdapter`: look the adapter up; if absent return an
error without invoking anything, otherwise invoke the adapter's
`generate` (abstract `exec`).  The second component records the
adapter invocations `(type, modelId)` actually performed. -/
def executeAdapterP (reg : Registry) (exec : String → String → FoResult)
    (t modelId : String) : FoResult × List (String × String) :=
  if reg.hasAdapter t then (exec t modelId, [(t, modelId)])
  else ({ error := some ("适配器不存在: " ++ t) }, [])

/-- The all-adapters-failed result of `Worker._generateWithFailover`
(no `code` field in the source). -/
def wfoExhaust (lastError : Option String) : FoResult :=
  { error := some ("所有支持该模型的适配器都无法使用: " ++ jsStr lastError) }

/-- The attempt loop of `Worker._generateWithFailover`: each iteration
calls `_executeAdapter`; a result with falsy `error` is returned
as-is, otherwise `lastError` is updated and the loop advances. -/
def wfoGo (reg : Registry) (exec : String → String → FoResult) :
    Nat → List (String × String) → Option String → FoResult × List (String × String)
  | 0, _, lastError => (wfoExhaust lastError, [])
  | _ + 1, [], lastError => (wfoExhaust lastError, [])
  | fuel + 1, c :: rest, _lastError =>
      let att := executeAdapterP reg exec c.1 c.2
      if jsTruthy att.1.error then
        let next := wfoGo reg exec fuel rest att.1.error
        (next.1, att.2 ++ next.2)
      else (att.1, att.2)

/-- `Worker._generateWithFailover`: note the source computes
`maxRetries = failoverConfig.maxRetries || 2`, so a configured `0` is
coerced to `2` and the `maxRetries === 0` branch of the
`maxAttempts` computation is unreachable. -/
def generateWithFailover (w : WorkerCfg) (reg : Registry)
    (exec : String → String → FoResult) (maxRetriesCfg : Option Nat)
    (modelId : String) : FoResult × List (String × String) :=
  let maxRetries := jsOrNat maxRetriesCfg 2
  let candidateTypes := getCandidateTypes w reg modelId
  if candidateTypes.isEmpty then
    ({ error := some ("Worker [" ++ w.name ++ "] 不支持模型: " ++ modelId) }, [])
  else
    let maxAttempts := if maxRetries = 0 then candidateTypes.length
      else min (maxRetries + 1) candidateTypes.length
    wfoGo reg exec maxAttempts candidateTypes none

/-- `Worker.generate` (`failoverEnabled` is the resolved
`failoverConfig.enabled !== false`). -/
def generate (w : WorkerCfg) (reg : Registry)
    (exec : String → String → FoResult) (failoverEnabled : Bool)
    (maxRetriesCfg : Option Nat) (modelId : String) :
    FoResult × List (String × String) :=
  if w.type == "merge" && failoverEnabled then
    generateWithFailover w reg exec maxRetriesCfg modelId
  else if !(supports w reg modelId) then
    ({ error := some ("Worker [" ++ w.name ++ "] 不支持模型: " ++ modelId) }, [])
  else
    let ty := getAdapterType w reg modelId
    let actualModelId := if hasSlash modelId then (jsSplit2 modelId).2 else modelId
    executeAdapterP reg exec ty actualModelId

/-- `Worker.getImagePolicy(modelKey)`: for merge workers a qualified
key naming a member delegates to that member; otherwise the policies
of all supporting members are collected into a set and resolved
optional-before-required-before-forbidden, with a final fallback of
`"optional"`. -/
def getImagePolicyW (w : WorkerCfg) (reg : Registry) (modelKey : String) : String :=
  if w.type == "merge" then
    let qualified : Option String :=
      if hasSlash modelKey then
        let st := jsSplit2 modelKey
        if w.mergeTypes.contains st.1 then some (reg.getImagePolicy st.1 st.2)
        else none
      else none
    match qualified with
    | some p => p
    | none =>
        let policies := (w.mergeTypes.filter
          (fun t => reg.supportsModel t modelKey)).map
          (fun t => reg.getImagePolicy t modelKey)
        if policies.contains "optional" then "optional"
        else if policies.contains "required" then "required"
        else if policies.contains "forbidden" then "forbidden"
        else "optional"
  else reg.getImagePolicy w.type modelKey

/-- The first loop of `Worker.getModels` for merge workers: keep the
first occurrence of each id (the `seenIds` set), restamping
`owned_by` to `"internal_server"`. -/
def dedupById : List MEntry → List String → List MEntry
  | [], _ => []
  | m :: rest, seen =>
      if seen.contains m.id then dedupById rest seen
      else { m with owned_by := "internal_server" } :: dedupById rest (m.id :: seen)

/-- `Worker.getModels()`. -/
def getModels (w : WorkerCfg) (reg : Registry) : List MEntry :=
  if w.type == "merge" then
    let flat := w.mergeTypes.flatMap (fun t => dataOf reg t)
    let bare := dedupById flat []
    let qualAll := w.mergeTypes.flatMap (fun t =>
      (dataOf reg t).map (fun m =>
        { m with id := t ++ "/" ++ m.id, owned_by := t }))
    bare ++ qualAll
  else
    let models := dataOf reg w.type
    models.map (fun m => { m with owned_by := "internal_server" }) ++
      models.map (fun m =>
        { m with id := w.type ++ "/" ++ m.id, owned_by := w.type })

/-! ## Busy counter (`Worker._executeAdapter` increments/decrements) -/

/-- Phase of one `_executeAdapter` call: not yet started, suspended
inside `adapter.generate`, or finished (by success result, error
result, or thrown exception — the `finally` runs on every path). -/
inductive Phase where
  | notStarted
  | suspended
  | finished
  deriving DecidableEq, Repr

/-- Observable state of one Worker under cooperative concurrency: the
busy counter plus the phases of a fixed family of `_executeAdapter`
calls. -/
structure BusySt where
  busyCount : Int
  ops : List Phase
  deriving DecidableEq, Repr

/-- Number of operations currently suspended inside the adapter. -/
def countSusp (ops : List Phase) : Nat := ops.countP (· == Phase.suspended)

/-- Steps of the Worker's busy-counter system, read off
`_executeAdapter`: `beginAdapter` is the `this.busyCount++`
immediately before `adapter.generate`; `endAdapter` is the
`finally { this.busyCount--; }`, taken on success results, error
results and thrown exceptions alike; `missingAdapter` is the
early `return` when `registry.getAdapter(type)` is absent, which
never touches the counter. -/
inductive BusyStep : BusySt → BusySt → Prop where
  | beginAdapter (s : BusySt) (i : Nat) (h : s.ops[i]? = some Phase.notStarted) :
      BusyStep s ⟨s.busyCount + 1, s.ops.set i Phase.suspended⟩
  | endAdapter (s : BusySt) (i : Nat) (h : s.ops[i]? = some Phase.suspended) :
      BusyStep s ⟨s.busyCount - 1, s.ops.set i Phase.finished⟩
  | missingAdapter (s : BusySt) (i : Nat) (h : s.ops[i]? = some Phase.notStarted) :
      BusyStep s ⟨s.busyCount, s.ops.set i Phase.finished⟩

/-- Reachability by interleaved executions. -/
inductive BusyReach (a : BusySt) : BusySt → Prop where
  | refl : BusyReach a a
  | tail {b c : BusySt} : BusyReach a b → BusyStep b c → BusyReach a c

/-! ## Response writers (`src/server/http/respond.js`) -/

/-- An `http.ServerResponse` as the writers observe it: the
`writableEnded` flag, the head written by `writeHead`, and the body
chunks in order. -/
structure HttpRes where
  writableEnded : Bool
  head : Option (Nat × String) := none
  chunks : List String := []
  deriving DecidableEq, Repr

/-- `res.write(chunk)`. -/
def resWrite (res : HttpRes) (chunk : String) : HttpRes :=
  { res with chunks := res.chunks ++ [chunk] }

/-- `res.end()` / `res.end(chunk)`. -/
def resEnd (res : HttpRes) (chunk : Option String) : HttpRes :=
  { res with
    chunks := res.chunks ++ (match chunk with | some c => [c] | none => [])
    writableEnded := true }

/-- `res.writeHead(status, { Content-Type })`. -/
def resWriteHead (res : HttpRes) (status : Nat) (contentType : String) : HttpRes :=
  { res with head := some (status, contentType) }

/-- `sendJson(res, status, payload)` with the payload already
serialized. -/
def sendJson (res : HttpRes) (status : Nat) (payloadJson : String) : HttpRes :=
  if res.writableEnded then res
  else resEnd (resWriteHead res status "application/json") (some payloadJson)

/-- `sendSse(res, payload)`. -/
def sendSse (res : HttpRes) (payloadJson : String) : HttpRes :=
  if res.writableEnded then res
  else resWrite res ("data: " ++ payloadJson ++ "\n\n")

/-- `sendSseDone(res)`. -/
def sendSseDone (res : HttpRes) : HttpRes :=
  if res.writableEnded then res
  else resEnd (resWrite res "data: [DONE]\n\n") none

/-- The serialized empty-delta chunk the `content`-mode heartbeat
writes (`Date.now()` passed in as `now`). -/
def heartbeatChunkJson (now : Nat) (modelName : Option String) : String :=
  "\x7b\"id\":\"chatcmpl-" ++ toString now ++
    "\",\"object\":\"chat.completion.chunk\",\"created\":" ++
    toString (now / 1000) ++ ",\"model\":\"" ++
    jsOrStr modelName "default-model" ++
    "\",\"choices\":[\x7b\"index\":0,\"delta\":\x7b\"content\":\"\"\x7d,\"finish_reason\":null\x7d]\x7d"

/-- `sendHeartbeat(res, mode, modelName)`. -/
def sendHeartbeat (res : HttpRes) (mode : String) (modelName : Option String)
    (now : Nat) : HttpRes :=
  if res.writableEnded then res
  else if mode == "comment" then resWrite res ":keepalive\n\n"
  else resWrite res ("data: " ++ heartbeatChunkJson now modelName ++ "\n\n")

/-! ## Worker initialization (`Worker.init`) -/

/-- External effects `Worker.init` can perform, coarse-grained. -/
inductive InitAction where
  | ensureDir (dir : String)
  | launchBrowser
  | newTab
  | installNavHandlers (count : Nat)
  | navigate (url : String)
  deriving DecidableEq, Repr

/-- The runtime fields of a Worker that `init` can touch. -/
structure WorkerRt where
  name : String
  userDataDir : String
  browser : Option Nat := none
  page : Option Nat := none
  busyCount : Int := 0
  initialized : Bool := false
  deriving DecidableEq, Repr

/-- The ambient facts `init` consults: whether the user-data directory
exists, the resolved target URL, login mode, how many navigation
handlers the member adapters register, the optional shared browser,
and the handles fresh resources would get. -/
structure InitEnv where
  dirExists : Bool
  targetUrl : String
  loginMode : Bool
  navHandlerCount : Nat
  sharedBrowser : Option Nat
  newBrowserHandle : Nat
  newPageHandle : Nat
  deriving DecidableEq, Repr

/-- `Worker.init(sharedBrowser)`: the guarded early return when
`initialized` is already set, else ensure the data directory, attach
to the shared browser or launch a new one, install the merged
navigation-handler chain unless in login mode or empty, navigate,
and set `initialized`. -/
def workerInit (s : WorkerRt) (env : InitEnv) : WorkerRt × List InitAction :=
  if s.initialized then (s, [])
  else
    let dirActs := if env.dirExists then [] else [InitAction.ensureDir s.userDataDir]
    let navActs :=
      if env.loginMode || env.navHandlerCount = 0 then []
      else [InitAction.installNavHandlers env.navHandlerCount]
    match env.sharedBrowser with
    | some b =>
        ({ s with browser := some b, page := some env.newPageHandle, initialized := true },
          dirActs ++ [InitAction.newTab, InitAction.navigate env.targetUrl] ++ navActs)
    | none =>
        ({ s with
            browser := some env.newBrowserHandle
            page := some env.newPageHandle
            initialized := true },
          dirActs ++ [InitAction.launchBrowser] ++ navActs ++
            [InitAction.navigate env.targetUrl])

/-! ## Proxy resolution (configuration loader `resolveProxyConfig`) -/

/-- The value of a proxy block's `enable` field under JS strict
equality: exactly `true`, exactly `false`, or anything else
(including an omitted field). -/
inductive EnableV where
  | etrue
  | efalse
  | eother
  deriving DecidableEq, Repr

/-- A proxy configuration block. -/
structure ProxyCfg where
  enable : EnableV
  host : String := ""
  port : Nat := 0
  deriving DecidableEq, Repr

/-- `resolveProxyConfig(globalProxy, instanceProxy)`: instance-level
explicit disable forces direct connection; instance-level explicit
enable selects the instance block; otherwise an enabled global block
applies; else direct connection. -/
def resolveProxyConfig (globalProxy instanceProxy : Option ProxyCfg) :
    Option ProxyCfg :=
  if instanceProxy.any (fun p => p.enable == EnableV.efalse) then none
  else if instanceProxy.any (fun p => p.enable == EnableV.etrue) then instanceProxy
  else if globalProxy.any (fun p => p.enable == EnableV.etrue) then globalProxy
  else none

/-! ## Concrete fixtures used by counterexamples and witnesses -/

/-- A registry knowing the single unqualified model `"m"` under every
adapter type. -/
def regFail : Registry where
  supportsModel := fun _ m => m == "m"
  getImagePolicy := fun _ _ => "optional"
  getModelsForAdapter := fun _ => none
  hasAdapter := fun _ => true

/-- A registry supporting nothing. -/
def regNoSupport : Registry where
  supportsModel := fun _ _ => false
  getImagePolicy := fun _ _ => "forbidden"
  getModelsForAdapter := fun _ => none
  hasAdapter := fun _ => true

/-- A registry whose adapters `"A"` and `"B"` both register the model
id `"m"`. -/
def regDup : Registry where
  supportsModel := fun _ m => m == "m"
  getImagePolicy := fun _ _ => "optional"
  getModelsForAdapter := fun t =>
    if t == "A" || t == "B" then some [{ id := "m", owned_by := "x" }] else none
  hasAdapter := fun _ => true

/-- An adapter invocation that always fails, tagging the error with the
adapter type. -/
def execFail : String → String → FoResult := fun t _ => { error := some ("fail-" ++ t) }

/-- An executor attempt that always fails, tagging the error with the
candidate. -/
def attC3 : String → FoAttempt := fun c => FoAttempt.ret { error := some ("err-" ++ c) }

/-- A merge worker with four member types. -/
def wMerge4 : WorkerCfg := { name := "w4", type := "merge", mergeTypes := ["a", "b", "c", "d"] }

/-- A merge worker with one member type. -/
def wMergeA : WorkerCfg := { name := "wA", type := "merge", mergeTypes := ["a"] }

/-- A merge worker with member types `"A"` and `"B"`. -/
def wMergeAB : WorkerCfg := { name := "wAB", type := "merge", mergeTypes := ["A", "B"] }

/-- A single (non-merge) worker of adapter type `"A"`. -/
def wSingleA : WorkerCfg := { name := "wS", type := "A" }

/-- An adapter invocation that always succeeds. -/
def execOk : String → String → FoResult := fun _ _ => {}

/-- An executor attempt that always succeeds. -/
def attOk : String → FoAttempt := fun _ => FoAttempt.ret {}

/-! ## Theorems -/

/-- Claim C2: the number of failover attempts is min(maxRetries+1, N)
for maxRetries>0 and N for maxRetries=0, for both the standalone
executor and the merge-Worker's internal failover.  The standalone
executor resolves `maxRetries` with `??` and honors the `0` case
(second conjunct: 4 candidates, maxRetries 0, 4 attempts), but
`Worker._generateWithFailover` resolves it with `|| 2`, so a
configured `0` is coerced to `2` and only min(2+1, 4) = 3 of the 4
candidates are attempted (first conjunct), leaving the worker's own
`maxRetries === 0` branch unreachable. -/
theorem c2_maxretries_zero_divergence :
    (generateWithFailover wMerge4 regFail execFail (some 0) "m").2.length = 3 ∧
      (failoverExecute 0 ["a", "b", "c", "d"]
        (fun t => FoAttempt.ret (execFail t "m"))).2.length = 4 := by
  decide

/-- Claim C3 counterexample: the claim says a non-retryable failure is
not counted against `maxRetries`.  With maxRetries = 1 and three
candidates that all fail — whatever classification the first error
receives, retryable or not — the executor attempts only the first
min(1+1, 3) = 2 candidates; `"c3"` is never attempted, although not
counting the first (non-retryable) failure would leave an attempt
for it.  The loop bound is fixed before classification is consulted. -/
theorem c3_nonretryable_counts_counterexample :
    (failoverExecute 1 ["c1", "c2", "c3"] attC3).2 = ["c1", "c2"] ∧
      "c3" ∉ (failoverExecute 1 ["c1", "c2", "c3"] attC3).2 := by
  decide

/-- Claim C4 counterexample: the merge-Worker's internal failover path,
on exhausting all (here: one) candidates, returns an error whose
message contains the last underlying error but carries no
`FAILOVER_EXHAUSTED` code — its result has no `code` field at all. -/
theorem c4_worker_exhaustion_counterexample :
    (generateWithFailover wMergeA regFail execFail none "m").1 =
        { error := some "所有支持该模型的适配器都无法使用: fail-a" } ∧
      (generateWithFailover wMergeA regFail execFail none "m").1.code ≠
        some "FAILOVER_EXHAUSTED" := by
  decide

/-- Claim C5 counterexample: for a merge worker none of whose members
supports the requested unqualified model, `getImagePolicy` returns
`"optional"` (the source's final fallback), not `"forbidden"` as the
claim states. -/
theorem c5_unsupported_policy_counterexample :
    getImagePolicyW wMergeA regNoSupport "m" = "optional" ∧
      getImagePolicyW wMergeA regNoSupport "m" ≠ "forbidden" := by
  decide

/-- Claim C8 counterexample: a merge worker whose two members both
register the model id `"m"` lists it three times — once bare (the
first loop deduplicates by id) and once per member in qualified form
(the second loop does not deduplicate) — not exactly twice. -/
theorem c8_duplicate_id_counterexample :
    getModels wMergeAB regDup =
        [{ id := "m", owned_by := "internal_server" },
          { id := "A/m", owned_by := "A" }, { id := "B/m", owned_by := "B" }] ∧
      (getModels wMergeAB regDup).countP
          (fun e => e.id == "m" || e.id == "A/m" || e.id == "B/m") = 3 ∧
      (3 : Nat) ≠ 2 := by
  decide

/-- Claim C7: every response writer of the stream transport —
JSON send, SSE data frame, SSE terminator, heartbeat in either mode —
is a no-op on a response whose writable side has already ended. -/
theorem c7_ended_writes_noop (res : HttpRes) (status : Nat)
    (payloadJson mode : String) (modelName : Option String) (now : Nat)
    (h : res.writableEnded = true) :
    sendJson res status payloadJson = res ∧ sendSse res payloadJson = res ∧
      sendSseDone res = res ∧ sendHeartbeat res mode modelName now = res := by
  refine ⟨?_, ?_, ?_, ?_⟩ <;> simp [sendJson, sendSse, sendSseDone, sendHeartbeat, h]

/-- Witness for C7 at a concrete already-ended response. -/
theorem c7_ended_writes_noop_witness :
    (⟨true, none, ["data: x\n\n"]⟩ : HttpRes).writableEnded = true ∧
      (sendJson ⟨true, none, ["data: x\n\n"]⟩ 200 "p" = ⟨true, none, ["data: x\n\n"]⟩ ∧
        sendSse ⟨true, none, ["data: x\n\n"]⟩ "p" = ⟨true, none, ["data: x\n\n"]⟩ ∧
        sendSseDone ⟨true, none, ["data: x\n\n"]⟩ = ⟨true, none, ["data: x\n\n"]⟩ ∧
        sendHeartbeat ⟨true, none, ["data: x\n\n"]⟩ "content" none 7 =
          ⟨true, none, ["data: x\n\n"]⟩) :=
  ⟨rfl, c7_ended_writes_noop ⟨true, none, ["data: x\n\n"]⟩ 200 "p" "content" none 7 rfl⟩

/-- Claim C9: `Worker.init` on an already-initialized Worker returns
immediately — no filesystem, browser, tab, handler or navigation
action, and no field of the Worker changes. -/
theorem c9_init_idempotent (s : WorkerRt) (env : InitEnv)
    (h : s.initialized = true) : workerInit s env = (s, []) := by
  simp [workerInit, h]

/-- Witness for C9 at a concrete initialized Worker. -/
theorem c9_init_idempotent_witness :
    (⟨"w", "d", some 1, some 2, 0, true⟩ : WorkerRt).initialized = true ∧
      workerInit ⟨"w", "d", some 1, some 2, 0, true⟩ ⟨false, "u", false, 1, none, 3, 4⟩ =
        (⟨"w", "d", some 1, some 2, 0, true⟩, []) :=
  ⟨rfl, c9_init_idempotent ⟨"w", "d", some 1, some 2, 0, true⟩
    ⟨false, "u", false, 1, none, 3, 4⟩ rfl⟩

/-- Claim C10: an instance proxy block whose `enable` is neither
strictly `true` nor strictly `false` resolves exactly like an absent
block — the enabled global proxy applies, else direct connection;
moreover only an explicit `enable: false` forces direct connection
and only an explicit `enable: true` selects the instance block. -/
theorem c10_proxy_resolution (g : Option ProxyCfg) (p : ProxyCfg)
    (h1 : p.enable ≠ EnableV.etrue) (h2 : p.enable ≠ EnableV.efalse) :
    resolveProxyConfig g (some p) = resolveProxyConfig g none ∧
      resolveProxyConfig g none =
        (if g.any (fun gp => gp.enable == EnableV.etrue) then g else none) ∧
      (∀ q : ProxyCfg, q.enable = EnableV.efalse →
        resolveProxyConfig g (some q) = none) ∧
      (∀ q : ProxyCfg, q.enable = EnableV.etrue →
        resolveProxyConfig g (some q) = some q) := by
  have hp : p.enable = EnableV.eother := by
    cases hpe : p.enable <;> simp_all
  refine ⟨?_, ?_, ?_, ?_⟩
  · simp [resolveProxyConfig, hp]
  · simp [resolveProxyConfig]
  · intro q hq; simp [resolveProxyConfig, hq]
  · intro q hq; simp [resolveProxyConfig, hq]

/-- Witness for C10 at a concrete instance block with omitted
`enable` and an enabled global proxy. -/
theorem c10_proxy_resolution_witness :
    (⟨EnableV.eother, "i", 2⟩ : ProxyCfg).enable ≠ EnableV.etrue ∧
      (⟨EnableV.eother, "i", 2⟩ : ProxyCfg).enable ≠ EnableV.efalse ∧
      (resolveProxyConfig (some ⟨EnableV.etrue, "g", 1⟩) (some ⟨EnableV.eother, "i", 2⟩) =
          resolveProxyConfig (some ⟨EnableV.etrue, "g", 1⟩) none ∧
        resolveProxyConfig (some ⟨EnableV.etrue, "g", 1⟩) none =
          (if (some (⟨EnableV.etrue, "g", 1⟩ : ProxyCfg)).any
              (fun gp => gp.enable == EnableV.etrue) then
            some ⟨EnableV.etrue, "g", 1⟩ else none) ∧
        (∀ q : ProxyCfg, q.enable = EnableV.efalse →
          resolveProxyConfig (some ⟨EnableV.etrue, "g", 1⟩) (some q) = none) ∧
        (∀ q : ProxyCfg, q.enable = EnableV.etrue →
          resolveProxyConfig (some ⟨EnableV.etrue, "g", 1⟩) (some q) = some q)) :=
  ⟨by decide, by decide,
    c10_proxy_resolution (some ⟨EnableV.etrue, "g", 1⟩) ⟨EnableV.eother, "i", 2⟩
      (by decide) (by decide)⟩

/-- Setting a list element shifts `countP` by the difference between
the old and the new element's contribution (stated additively). -/
theorem countP_set_eq (p : Phase → Bool) :
    ∀ (l : List Phase) (i : Nat) (a : Phase), l[i]? = some a → ∀ x : Phase,
      (l.set i x).countP p + (if p a then 1 else 0) =
        l.countP p + (if p x then 1 else 0)
  | [], i, a, h, x => by simp at h
  | b :: rest, 0, a, h, x => by
      simp only [List.getElem?_cons_zero, Option.some.injEq] at h
      subst h
      simp [List.countP_cons]
      omega
  | b :: rest, i + 1, a, h, x => by
      simp only [List.getElem?_cons_succ] at h
      have ih := countP_set_eq p rest i a h x
      simp [List.countP_cons]
      omega

/-- No operation of a fresh family is suspended. -/
theorem countSusp_replicate (n : Nat) :
    countSusp (List.replicate n Phase.notStarted) = 0 := by
  induction n with
  | zero => rfl
  | succ k ih => simp [countSusp, List.replicate_succ, List.countP_cons]

/-- Claim C1: in every state reachable by interleaved
`_executeAdapter` executions from a quiescent Worker, the busy
counter equals the prior value plus the number of executions
currently suspended inside `adapter.generate`; in particular it is
never negative, and once every started execution has taken its exit
path — success result, error result, or thrown exception — the
counter is back at its prior value. -/
theorem c1_busy_counter_invariant (n : Nat) (prior : Int) (h0 : 0 ≤ prior)
    (s : BusySt)
    (h : BusyReach ⟨prior, List.replicate n Phase.notStarted⟩ s) :
    s.busyCount = prior + countSusp s.ops ∧ 0 ≤ s.busyCount ∧
      (countSusp s.ops = 0 → s.busyCount = prior) := by
  have main : s.busyCount = prior + countSusp s.ops := by
    induction h with
    | refl => simp [countSusp_replicate]
    | tail hr step ih =>
        cases step with
        | beginAdapter i hi =>
            have hc := countP_set_eq (· == Phase.suspended) _ i _ hi Phase.suspended
            simp only [countSusp] at ih ⊢
            simp at hc

            omega
        | endAdapter i hi =>
            have hc := countP_set_eq (· == Phase.suspended) _ i _ hi Phase.finished
            simp only [countSusp] at ih ⊢
            simp at hc

            omega
        | missingAdapter i hi =>
            have hc := countP_set_eq (· == Phase.suspended) _ i _ hi Phase.finished
            simp only [countSusp] at ih ⊢
            simp at hc

            omega
  refine ⟨main, ?_, ?_⟩
  · have : (0 : Int) ≤ countSusp s.ops := Int.ofNat_nonneg _
    omega
  · intro hz; rw [main, hz]; simp

/-- Witness for C1: one execution enters the adapter from a quiescent
single-op Worker; the counter reads 1 = number suspended. -/
theorem c1_busy_counter_invariant_witness :
    (0 : Int) ≤ 0 ∧
      ((⟨1, [Phase.suspended]⟩ : BusySt).busyCount =
          0 + countSusp (⟨1, [Phase.suspended]⟩ : BusySt).ops ∧
        0 ≤ (⟨1, [Phase.suspended]⟩ : BusySt).busyCount ∧
        (countSusp (⟨1, [Phase.suspended]⟩ : BusySt).ops = 0 →
          (⟨1, [Phase.suspended]⟩ : BusySt).busyCount = 0)) :=
  ⟨le_refl 0,
    c1_busy_counter_invariant 1 0 (le_refl 0) ⟨1, [Phase.suspended]⟩
      (BusyReach.tail BusyReach.refl
        (by
          have hstep := BusyStep.beginAdapter
            ⟨0, List.replicate 1 Phase.notStarted⟩ 0 (by decide)
          simpa using hstep))⟩

/-- When every candidate fails, the executor loop attempts exactly the
first `fuel` candidates, whatever the errors are and however they
would be classified. -/
theorem foGo_allfail_trace {α : Type} (attempt : α → FoAttempt) :
    ∀ (cands : List α), (∀ c ∈ cands, attemptFails (attempt c) = true) →
      ∀ (fuel : Nat) (le : Option String),
        (foGo attempt fuel cands le).2 = cands.take fuel := by
  intro cands
  induction cands with
  | nil => intro h fuel le; cases fuel <;> simp [foGo]
  | cons c rest ih =>
      intro h fuel le
      cases fuel with
      | zero => simp [foGo]
      | succ f =>
          have hc := h c (List.mem_cons_self c rest)
          have hrest : ∀ x ∈ rest, attemptFails (attempt x) = true :=
            fun x hx => h x (List.mem_cons_of_mem c hx)
          cases hat : attempt c with
          | ret r =>
              rw [hat] at hc
              simp only [attemptFails] at hc
              simp [foGo, hat, hc, ih hrest]
          | thr m => simp [foGo, hat, ih hrest]

/-- A nonempty list keeps a nonempty prefix when at least one element
is taken. -/
theorem take_ne_nil_of_ne_nil {α : Type} {l : List α} (h : l ≠ []) {n : Nat}
    (hn : 1 ≤ n) : l.take n ≠ [] := by
  cases l with
  | nil => exact absurd rfl h
  | cons x xs =>
      cases n with
      | zero => omega
      | succ m => simp

/-- `getLastD` of a nonempty list ignores the default. -/
theorem getLastD_of_ne_nil {α : Type} {l : List α} (h : l ≠ []) (a b : α) :
    l.getLastD a = l.getLastD b := by
  cases l with
  | nil => exact absurd rfl h
  | cons x xs => rw [List.getLastD_cons, List.getLastD_cons]

/-- When every candidate fails and at least one is attempted, the loop
ends with the exhaustion result built from the error of the last
attempted candidate. -/
theorem foGo_allfail_res {α : Type} (attempt : α → FoAttempt) (d : α) :
    ∀ (cands : List α), (∀ c ∈ cands, attemptFails (attempt c) = true) →
      cands ≠ [] → ∀ (fuel : Nat), 1 ≤ fuel → ∀ (le : Option String),
        (foGo attempt fuel cands le).1 =
          foExhaust (attErrOpt (attempt ((cands.take fuel).getLastD d))) := by
  intro cands
  induction cands with
  | nil => intro _ hne; exact absurd rfl hne
  | cons c rest ih =>
      intro h _ fuel hfuel le
      cases fuel with
      | zero => omega
      | succ f =>
          have hc := h c (List.mem_cons_self c rest)
          have hrest : ∀ x ∈ rest, attemptFails (attempt x) = true :=
            fun x hx => h x (List.mem_cons_of_mem c hx)
          cases hat : attempt c with
          | ret r =>
              rw [hat] at hc
              simp only [attemptFails] at hc
              cases f with
              | zero => simp [foGo, hat, hc, attErrOpt]
              | succ g =>
                  cases hrn : rest with
                  | nil => simp [foGo, hat, hc, attErrOpt]
                  | cons y ys =>
                      rw [← hrn]
                      have hrne : rest ≠ [] := by simp [hrn]
                      have := ih hrest hrne (g + 1) (by omega) r.error
                      simp only [foGo, hat, hc, if_pos]
                      rw [this]
                      congr 1
                      rw [List.take_succ_cons, List.getLastD_cons]
                      exact congrArg (fun z => attErrOpt (attempt z))
                        (getLastD_of_ne_nil
                          (take_ne_nil_of_ne_nil hrne (by omega)) c d).symm
          | thr m =>
              cases f with
              | zero => simp [foGo, hat, attErrOpt]
              | succ g =>
                  cases hrn : rest with
                  | nil => simp [foGo, hat, attErrOpt]
                  | cons y ys =>
                      rw [← hrn]
                      have hrne : rest ≠ [] := by simp [hrn]
                      have := ih hrest hrne (g + 1) (by omega) (some m)
                      simp only [foGo, hat]
                      rw [this]
                      congr 1
                      rw [List.take_succ_cons, List.getLastD_cons]
                      exact congrArg (fun z => attErrOpt (attempt z))
                        (getLastD_of_ne_nil
                          (take_ne_nil_of_ne_nil hrne (by omega)) c d).symm

/-- Claim C3, amended: on a non-retryable error result with further
candidates remaining the executor advances to the next candidate
rather than stopping — but the attempt does count against the
attempt budget exactly as a retryable failure would: whatever the
failures' errors and classification, when every candidate fails the
executor attempts exactly the first min(maxRetries+1, N) candidates
(all N when maxRetries = 0), no more and no fewer. -/
theorem c3_amended_skip_counts_against_budget {α : Type} (m : Nat)
    (cands : List α) (attempt : α → FoAttempt)
    (h : ∀ c ∈ cands, attemptFails (attempt c) = true) :
    (failoverExecute m cands attempt).2 =
      cands.take (if m = 0 then cands.length else min (m + 1) cands.length) := by
  cases cands with
  | nil => cases m <;> simp [failoverExecute]
  | cons c rest =>
      simp only [failoverExecute, List.isEmpty_cons, Bool.false_eq_true, if_false]
      rw [foGo_allfail_trace attempt _ h]

/-- Witness for amended C3: three always-failing candidates with
maxRetries = 1; exactly the first two are attempted. -/
theorem c3_amended_skip_counts_against_budget_witness :
    (∀ c ∈ ["c1", "c2", "c3"], attemptFails (attC3 c) = true) ∧
      (failoverExecute 1 ["c1", "c2", "c3"] attC3).2 =
        ["c1", "c2", "c3"].take
          (if (1 : Nat) = 0 then (["c1", "c2", "c3"] : List String).length
            else min (1 + 1) (["c1", "c2", "c3"] : List String).length) :=
  ⟨by decide, c3_amended_skip_counts_against_budget 1 ["c1", "c2", "c3"] attC3 (by decide)⟩

/-- The executor loop returns the first succeeding candidate's result
as-is, after attempting exactly the failing candidates before it. -/
theorem foGo_first_success {α : Type} (attempt : α → FoAttempt) :
    ∀ (pre : List α) (c : α) (rest : List α),
      (∀ x ∈ pre, attemptFails (attempt x) = true) →
      attemptFails (attempt c) = false →
      ∀ (fuel : Nat), pre.length < fuel → ∀ (le : Option String),
        foGo attempt fuel (pre ++ c :: rest) le = (attRes (attempt c), pre ++ [c]) := by
  intro pre
  induction pre with
  | nil =>
      intro c rest _ hsucc fuel hfuel le
      cases fuel with
      | zero => omega
      | succ f =>
          cases hat : attempt c with
          | ret r =>
              rw [hat] at hsucc
              simp only [attemptFails] at hsucc
              simp [foGo, hat, hsucc, attRes]
          | thr m => rw [hat] at hsucc; simp [attemptFails] at hsucc
  | cons x pre ih =>
      intro c rest hpre hsucc fuel hfuel le
      cases fuel with
      | zero => simp at hfuel
      | succ f =>
          have hx := hpre x (List.mem_cons_self x pre)
          have hpre2 : ∀ y ∈ pre, attemptFails (attempt y) = true :=
            fun y hy => hpre y (List.mem_cons_of_mem x hy)
          have hlt : pre.length < f := by simp at hfuel; omega
          cases hat : attempt x with
          | ret r =>
              rw [hat] at hx
              simp only [attemptFails] at hx
              simp [foGo, hat, hx, ih c rest hpre2 hsucc f hlt]
          | thr m =>
              simp [foGo, hat, ih c rest hpre2 hsucc f hlt]

/-- Worker failover loop: when every candidate's `_executeAdapter`
result fails and at least one is attempted, the loop ends with the
worker's exhaustion message built from the last attempted
candidate's error. -/
theorem wfoGo_allfail_res (reg : Registry) (exec : String → String → FoResult)
    (dw : String × String) :
    ∀ (cands : List (String × String)),
      (∀ c ∈ cands, jsTruthy ((executeAdapterP reg exec c.1 c.2).1.error) = true) →
      cands ≠ [] → ∀ (fuel : Nat), 1 ≤ fuel → ∀ (le : Option String),
        (wfoGo reg exec fuel cands le).1 =
          wfoExhaust ((executeAdapterP reg exec ((cands.take fuel).getLastD dw).1
            ((cands.take fuel).getLastD dw).2).1.error) := by
  intro cands
  induction cands with
  | nil => intro _ hne; exact absurd rfl hne
  | cons c rest ih =>
      intro h _ fuel hfuel le
      cases fuel with
      | zero => omega
      | succ f =>
          have hc := h c (List.mem_cons_self c rest)
          have hrest : ∀ x ∈ rest, jsTruthy ((executeAdapterP reg exec x.1 x.2).1.error) = true :=
            fun x hx => h x (List.mem_cons_of_mem c hx)
          cases f with
          | zero => simp [wfoGo, hc]
          | succ g =>
              cases hrn : rest with
              | nil => simp [wfoGo, hc]
              | cons y ys =>
                  rw [← hrn]
                  have hrne : rest ≠ [] := by simp [hrn]
                  have := ih hrest hrne (g + 1) (by omega) ((executeAdapterP reg exec c.1 c.2).1.error)
                  simp only [wfoGo, hc, if_pos]
                  rw [this]
                  have heq := getLastD_of_ne_nil
                    (take_ne_nil_of_ne_nil hrne (show 1 ≤ g + 1 by omega)) c dw
                  rw [List.take_succ_cons, List.getLastD_cons, heq]

/-- Worker failover loop: the first succeeding candidate's
`_executeAdapter` result is returned as-is. -/
theorem wfoGo_first_success (reg : Registry) (exec : String → String → FoResult) :
    ∀ (pre : List (String × String)) (c : String × String)
      (rest : List (String × String)),
      (∀ x ∈ pre, jsTruthy ((executeAdapterP reg exec x.1 x.2).1.error) = true) →
      jsTruthy ((executeAdapterP reg exec c.1 c.2).1.error) = false →
      ∀ (fuel : Nat), pre.length < fuel → ∀ (le : Option String),
        (wfoGo reg exec fuel (pre ++ c :: rest) le).1 =
          (executeAdapterP reg exec c.1 c.2).1 := by
  intro pre
  induction pre with
  | nil =>
      intro c rest _ hsucc fuel hfuel le
      cases fuel with
      | zero => omega
      | succ f => simp [wfoGo, hsucc]
  | cons x pre ih =>
      intro c rest hpre hsucc fuel hfuel le
      cases fuel with
      | zero => simp at hfuel
      | succ f =>
          have hx := hpre x (List.mem_cons_self x pre)
          have hpre2 : ∀ y ∈ pre, jsTruthy ((executeAdapterP reg exec y.1 y.2).1.error) = true :=
            fun y hy => hpre y (List.mem_cons_of_mem x hy)
          have hlt : pre.length < f := by simp at hfuel; omega
          simp [wfoGo, hx, ih c rest hpre2 hsucc f hlt]

/-- The worker's `maxRetries = failoverConfig.maxRetries || 2` is never
zero. -/
theorem jsOrNat_two_ne_zero (v : Option Nat) : jsOrNat v 2 ≠ 0 := by
  cases v with
  | none => simp [jsOrNat]
  | some n => cases n <;> simp [jsOrNat]

/-- Claim C4, amended: when every attempted candidate fails, the
standalone executor returns an error with code `FAILOVER_EXHAUSTED`
whose message contains the last underlying error, and the first
succeeding candidate's result is returned as-is; the merge-Worker's
internal failover path likewise returns the first success as-is and
an exhaustion error whose message contains the last underlying
error, but its exhaustion result carries no code field (in
particular its `code` is not `FAILOVER_EXHAUSTED`). -/
theorem c4_amended_failover_results {α : Type}
    (m : Nat) (cands : List α) (att : α → FoAttempt) (d : α)
    (m2 : Nat) (pre : List α) (c : α) (rest : List α) (att2 : α → FoAttempt)
    (w w2 : WorkerCfg) (reg reg2 : Registry)
    (exec exec2 : String → String → FoResult) (mrc mrc2 : Option Nat)
    (modelId modelId2 : String) (dw : String × String)
    (pre2 : List (String × String)) (c2 : String × String)
    (rest2 : List (String × String))
    (h1 : ∀ x ∈ cands, attemptFails (att x) = true)
    (h2 : cands ≠ [])
    (h3 : ∀ x ∈ pre, attemptFails (att2 x) = true)
    (h4 : attemptFails (att2 c) = false)
    (h5 : pre.length < (if m2 = 0 then (pre ++ c :: rest).length
      else min (m2 + 1) (pre ++ c :: rest).length))
    (h6 : getCandidateTypes w reg modelId ≠ [])
    (h7 : ∀ q ∈ getCandidateTypes w reg modelId,
      jsTruthy ((executeAdapterP reg exec q.1 q.2).1.error) = true)
    (h8 : getCandidateTypes w2 reg2 modelId2 = pre2 ++ c2 :: rest2)
    (h9 : ∀ q ∈ pre2, jsTruthy ((executeAdapterP reg2 exec2 q.1 q.2).1.error) = true)
    (h10 : jsTruthy ((executeAdapterP reg2 exec2 c2.1 c2.2).1.error) = false)
    (h11 : pre2.length < min (jsOrNat mrc2 2 + 1) (pre2 ++ c2 :: rest2).length) :
    ((failoverExecute m cands att).1 =
        foExhaust (attErrOpt (att ((cands.take (if m = 0 then cands.length
          else min (m + 1) cands.length)).getLastD d))) ∧
      (failoverExecute m cands att).1.code = some "FAILOVER_EXHAUSTED") ∧
      failoverExecute m2 (pre ++ c :: rest) att2 = (attRes (att2 c), pre ++ [c]) ∧
      ((generateWithFailover w reg exec mrc modelId).1 =
          wfoExhaust ((executeAdapterP reg exec
            (((getCandidateTypes w reg modelId).take
              (min (jsOrNat mrc 2 + 1) (getCandidateTypes w reg modelId).length)).getLastD dw).1
            (((getCandidateTypes w reg modelId).take
              (min (jsOrNat mrc 2 + 1) (getCandidateTypes w reg modelId).length)).getLastD dw).2).1.error) ∧
        (generateWithFailover w reg exec mrc modelId).1.code = none) ∧
      (generateWithFailover w2 reg2 exec2 mrc2 modelId2).1 =
        (executeAdapterP reg2 exec2 c2.1 c2.2).1 := by
  have hlen : 0 < cands.length := List.length_pos.mpr h2
  have hie : cands.isEmpty = false := by
    cases cands with
    | nil => exact absurd rfl h2
    | cons a l => rfl
  have part1 : (failoverExecute m cands att).1 =
      foExhaust (attErrOpt (att ((cands.take (if m = 0 then cands.length
        else min (m + 1) cands.length)).getLastD d))) := by
    have hfuel : 1 ≤ (if m = 0 then cands.length else min (m + 1) cands.length) := by
      split <;> omega
    simp only [failoverExecute, hie, Bool.false_eq_true, if_false]
    exact foGo_allfail_res att d cands h1 h2 _ hfuel none
  have hne6 : (getCandidateTypes w reg modelId).isEmpty = false := by
    cases hpp : getCandidateTypes w reg modelId with
    | nil => exact absurd hpp h6
    | cons a l => rfl
  have part3 : (generateWithFailover w reg exec mrc modelId).1 =
      wfoExhaust ((executeAdapterP reg exec
        (((getCandidateTypes w reg modelId).take
          (min (jsOrNat mrc 2 + 1) (getCandidateTypes w reg modelId).length)).getLastD dw).1
        (((getCandidateTypes w reg modelId).take
          (min (jsOrNat mrc 2 + 1) (getCandidateTypes w reg modelId).length)).getLastD dw).2).1.error) := by
    have hlen6 : 0 < (getCandidateTypes w reg modelId).length := List.length_pos.mpr h6
    have hfuel : 1 ≤ min (jsOrNat mrc 2 + 1) (getCandidateTypes w reg modelId).length := by
      omega
    simp only [generateWithFailover, hne6, Bool.false_eq_true, if_false,
      jsOrNat_two_ne_zero mrc, if_neg]
    exact wfoGo_allfail_res reg exec dw _ h7 h6 _ hfuel none
  refine ⟨⟨part1, ?_⟩, ?_, ⟨part3, ?_⟩, ?_⟩
  · rw [part1]; rfl
  · have hne : (pre ++ c :: rest) ≠ [] := by simp
    have hie2 : (pre ++ c :: rest).isEmpty = false := by
      cases hpp : pre ++ c :: rest with
      | nil => exact absurd hpp hne
      | cons a l => rfl
    simp only [failoverExecute, hie2, Bool.false_eq_true, if_false]
    exact foGo_first_success att2 pre c rest h3 h4 _ h5 none
  · rw [part3]; rfl
  · have hne8 : (pre2 ++ c2 :: rest2) ≠ [] := by simp
    have hie8 : (pre2 ++ c2 :: rest2).isEmpty = false := by
      cases hpp : pre2 ++ c2 :: rest2 with
      | nil => exact absurd hpp hne8
      | cons a l => rfl
    simp only [generateWithFailover, h8, hie8, Bool.false_eq_true, if_false,
      jsOrNat_two_ne_zero mrc2, if_neg]
    exact wfoGo_first_success reg2 exec2 pre2 c2 rest2 h9 h10 _ h11 none

/-- Witness for amended C4: exhaustion and first-success instances for
both the standalone executor and the merge-Worker path. -/
theorem c4_amended_failover_results_witness :
    ((failoverExecute 2 ["a", "b"] attC3).1 =
        foExhaust (attErrOpt (attC3 ((["a", "b"].take
          (if (2 : Nat) = 0 then (["a", "b"] : List String).length
            else min (2 + 1) (["a", "b"] : List String).length)).getLastD "z"))) ∧
      (failoverExecute 2 ["a", "b"] attC3).1.code = some "FAILOVER_EXHAUSTED") ∧
      failoverExecute 1 (([] : List String) ++ "s" :: []) attOk =
        (attRes (attOk "s"), ([] : List String) ++ ["s"]) ∧
      ((generateWithFailover wMergeAB regFail execFail none "m").1 =
          wfoExhaust ((executeAdapterP regFail execFail
            (((getCandidateTypes wMergeAB regFail "m").take
              (min (jsOrNat (none : Option Nat) 2 + 1)
                (getCandidateTypes wMergeAB regFail "m").length)).getLastD ("z", "z")).1
            (((getCandidateTypes wMergeAB regFail "m").take
              (min (jsOrNat (none : Option Nat) 2 + 1)
                (getCandidateTypes wMergeAB regFail "m").length)).getLastD ("z", "z")).2).1.error) ∧
        (generateWithFailover wMergeAB regFail execFail none "m").1.code = none) ∧
      (generateWithFailover wMergeA regFail execOk none "m").1 =
        (executeAdapterP regFail execOk ("a", "m").1 ("a", "m").2).1 :=
  c4_amended_failover_results 2 ["a", "b"] attC3 "z" 1 [] "s" [] attOk wMergeAB wMergeA
    regFail regFail execFail execOk none none "m" "m" ("z", "z") [] ("a", "m") []
    (by decide) (by decide) (by decide) (by decide) (by decide) (by decide)
    (by decide) (by decide) (by decide) (by decide) (by decide)

/-- Membership in a filtered-and-mapped list, as a single `any` over
the original list. -/
theorem contains_filter_map (l : List String) (p : String → Bool)
    (f : String → String) (x : String) :
    ((l.filter p).map f).contains x = l.any (fun t => p t && (x == f t)) := by
  induction l with
  | nil => rfl
  | cons t rest ih =>
      simp only [List.elem_eq_mem] at ih
      simp only [List.filter_cons, List.any_cons]
      by_cases hp : p t
      · simp [hp, ih]
      · simp [hp, ih]

/-- Claim C5, amended: for a merge worker and an unqualified model
key, `getImagePolicy` returns `optional` if some supporting member
reports `optional`, else `required` if some supporting member
reports `required`, else `forbidden` if some supporting member
reports `forbidden`, and `optional` in all remaining cases — in
particular `optional`, not `forbidden`, when no member supports the
model. -/
theorem c5_amended_image_policy (w : WorkerCfg) (reg : Registry) (modelKey : String)
    (hm : w.type = "merge") (hk : hasSlash modelKey = false) :
    getImagePolicyW w reg modelKey =
      (if w.mergeTypes.any (fun t => reg.supportsModel t modelKey &&
          ("optional" == reg.getImagePolicy t modelKey)) then "optional"
      else if w.mergeTypes.any (fun t => reg.supportsModel t modelKey &&
          ("required" == reg.getImagePolicy t modelKey)) then "required"
      else if w.mergeTypes.any (fun t => reg.supportsModel t modelKey &&
          ("forbidden" == reg.getImagePolicy t modelKey)) then "forbidden"
      else "optional") := by
  simp only [getImagePolicyW, hm, hk, Bool.false_eq_true, if_false, beq_self_eq_true,
    if_true, if_pos]
  rw [contains_filter_map, contains_filter_map, contains_filter_map]

/-- Witness for amended C5: a merge worker whose two members support
the model with policy `optional`. -/
theorem c5_amended_image_policy_witness :
    wMergeAB.type = "merge" ∧ hasSlash "m" = false ∧
      getImagePolicyW wMergeAB regFail "m" =
        (if wMergeAB.mergeTypes.any (fun t => regFail.supportsModel t "m" &&
            ("optional" == regFail.getImagePolicy t "m")) then "optional"
        else if wMergeAB.mergeTypes.any (fun t => regFail.supportsModel t "m" &&
            ("required" == regFail.getImagePolicy t "m")) then "required"
        else if wMergeAB.mergeTypes.any (fun t => regFail.supportsModel t "m" &&
            ("forbidden" == regFail.getImagePolicy t "m")) then "forbidden"
        else "optional") :=
  ⟨rfl, rfl, c5_amended_image_policy wMergeAB regFail "m" rfl rfl⟩

/-- `_executeAdapter` only ever invokes the adapter it was asked for. -/
theorem executeAdapterP_trace_mem (reg : Registry)
    (exec : String → String → FoResult) (t mid : String) (q : String × String) :
    q ∈ (executeAdapterP reg exec t mid).2 → q = (t, mid) := by
  unfold executeAdapterP
  by_cases ha : reg.hasAdapter t <;> simp [ha]

/-- Every adapter invocation of the worker failover loop is one of the
candidates handed to it. -/
theorem wfoGo_trace_mem (reg : Registry) (exec : String → String → FoResult)
    (q : String × String) :
    ∀ (cands : List (String × String)) (fuel : Nat) (le : Option String),
      q ∈ (wfoGo reg exec fuel cands le).2 → q ∈ cands := by
  intro cands
  induction cands with
  | nil => intro fuel le h; cases fuel <;> simp [wfoGo] at h
  | cons c rest ih =>
      intro fuel le h
      cases fuel with
      | zero => simp [wfoGo] at h
      | succ f =>
          by_cases hj : jsTruthy (executeAdapterP reg exec c.1 c.2).1.error = true
          · simp only [wfoGo, hj, if_pos, List.mem_append] at h
            rcases h with h1 | h2
            · have := executeAdapterP_trace_mem reg exec c.1 c.2 q h1
              rw [this]
              exact List.mem_cons_self (c.1, c.2) rest
            · exact List.mem_cons_of_mem c (ih f _ h2)
          · have hj2 : jsTruthy (executeAdapterP reg exec c.1 c.2).1.error = false :=
              Bool.eq_false_iff.mpr hj
            simp only [wfoGo, hj2, Bool.false_eq_true, if_false] at h
            have := executeAdapterP_trace_mem reg exec c.1 c.2 q h
            rw [this]
            exact List.mem_cons_self (c.1, c.2) rest

/-- Claim C6: a qualified key `adapterType/id` reaching a merge worker
is routed only to the named member — every adapter invocation of
`generate` names that adapter type, with failover enabled or
disabled — and when the named type is not a member or does not know
the id, `generate` fails with the unsupported-model error without
invoking any adapter.  The hypothesis `hraw` states that no member
supports the raw slash-containing key itself (registered model ids
contain no slash). -/
theorem c6_qualified_routing
    (w : WorkerCfg) (reg : Registry) (exec : String → String → FoResult)
    (T idStr modelKey : String) (failoverEnabled : Bool) (mrc : Option Nat)
    (hm : w.type = "merge")
    (hs : hasSlash modelKey = true)
    (hsp : jsSplit2 modelKey = (T, idStr))
    (hraw : ∀ t ∈ w.mergeTypes, reg.supportsModel t modelKey = false) :
    (∀ p ∈ (generate w reg exec failoverEnabled mrc modelKey).2, p.1 = T) ∧
      ((w.mergeTypes.contains T = false ∨ reg.supportsModel T idStr = false) →
        generate w reg exec failoverEnabled mrc modelKey =
          ({ error := some ("Worker [" ++ w.name ++ "] 不支持模型: " ++ modelKey) }, [])) := by
  have hany : (w.mergeTypes.any fun t => reg.supportsModel t modelKey) = false := by
    rw [List.any_eq_false]
    intro t ht
    simp [hraw t ht]
  have hcand : getCandidateTypes w reg modelKey =
      (if w.mergeTypes.contains T && reg.supportsModel T idStr then [(T, idStr)]
        else []) := by
    simp only [getCandidateTypes, hs, if_true, hsp]
  have hsup : supports w reg modelKey =
      (w.mergeTypes.contains T && reg.supportsModel T idStr) := by
    simp only [supports, hm, beq_self_eq_true, if_true, hany, Bool.false_eq_true,
      if_false, hs, hsp]
    by_cases hT : w.mergeTypes.contains T <;> simp [hT]
  constructor
  · intro p hp
    cases failoverEnabled with
    | true =>
        simp only [generate, hm, beq_self_eq_true, Bool.and_true, if_true] at hp
        by_cases hTq : (w.mergeTypes.contains T && reg.supportsModel T idStr) = true
        · simp only [generateWithFailover, hcand, hTq, if_true] at hp
          simp only [List.isEmpty_cons, Bool.false_eq_true, if_false] at hp
          have := wfoGo_trace_mem reg exec p [(T, idStr)] _ _ hp
          simp only [List.mem_singleton] at this
          rw [this]
        · have hcand2 : getCandidateTypes w reg modelKey = [] := by
            rw [hcand, if_neg hTq]
          simp [generateWithFailover, hcand2] at hp
    | false =>
        simp only [generate, Bool.and_false, Bool.false_eq_true, if_false] at hp
        by_cases hS : supports w reg modelKey = true
        · rw [hsup] at hS
          have hT : w.mergeTypes.contains T = true := by
            revert hS
            cases w.mergeTypes.contains T <;> simp
          have hTmem : T ∈ w.mergeTypes := by simpa using hT
          have hty : getAdapterType w reg modelKey = T := by
            simp [getAdapterType, hm, hs, hsp, hTmem]
          simp only [hsup, hS, Bool.not_true, Bool.false_eq_true, if_false, hty,
            hs, if_true, hsp] at hp
          have := executeAdapterP_trace_mem reg exec T idStr p hp
          rw [this]
        · have hS2 : supports w reg modelKey = false := Bool.eq_false_iff.mpr hS
          simp [hS2] at hp
  · intro hfail
    have hcontra : ¬((w.mergeTypes.contains T && reg.supportsModel T idStr) = true) := by
      rcases hfail with h | h <;> rw [h] <;> simp
    have hcand2 : getCandidateTypes w reg modelKey = [] := by
      rw [hcand, if_neg hcontra]
    cases failoverEnabled with
    | true =>
        simp only [generate, hm, beq_self_eq_true, Bool.and_true, if_true]
        simp [generateWithFailover, hcand2]
    | false =>
        have hsf : supports w reg modelKey = false := by
          rw [hsup]
          exact Bool.eq_false_iff.mpr hcontra
        simp only [generate, Bool.and_false, Bool.false_eq_true, if_false]
        simp [hsf]

/-- Witness for C6: a merge worker with single member `"A"`, the
qualified key `"A/x"`; both routing conclusions instantiated. -/
theorem c6_qualified_routing_witness :
    (wMergeA.type = "merge" ∧ hasSlash "A/x" = true ∧ jsSplit2 "A/x" = ("A", "x") ∧
      (∀ t ∈ wMergeA.mergeTypes, regFail.supportsModel t "A/x" = false)) ∧
      ((∀ p ∈ (generate wMergeA regFail execOk true none "A/x").2, p.1 = "A") ∧
        ((wMergeA.mergeTypes.contains "A" = false ∨
            regFail.supportsModel "A" "x" = false) →
          generate wMergeA regFail execOk true none "A/x" =
            ({ error := some ("Worker [" ++ wMergeA.name ++ "] 不支持模型: " ++ "A/x") },
              []))) :=
  ⟨⟨rfl, rfl, by decide, by decide⟩,
    c6_qualified_routing wMergeA regFail execOk "A" "x" "A/x" true none rfl rfl
      (by decide) (by decide)⟩

/-! ### String plumbing for the model-listing claim -/

/-- Strings with equal character data are equal. -/
theorem stringDataInj : ∀ {a b : String}, a.data = b.data → a = b := by
  intro a b h
  cases a
  cases b
  simp_all

/-- Appending strings appends their character data. -/
theorem stringAppendData (a b : String) : (a ++ b).data = a.data ++ b.data := by
  cases a
  cases b
  rfl

/-- Splitting at a separator character that occurs in neither prefix is
unambiguous. -/
theorem listSlashSplitInj : ∀ (la lb lx ly : List Char), '/' ∉ la → '/' ∉ lb →
    la ++ '/' :: lx = lb ++ '/' :: ly → la = lb ∧ lx = ly := by
  intro la
  induction la with
  | nil =>
      intro lb lx ly _ hb h
      cases lb with
      | nil => simpa using h
      | cons c lb2 =>
          simp only [List.nil_append, List.cons_append, List.cons.injEq] at h
          exact absurd (h.1 ▸ List.mem_cons_self c lb2) hb
  | cons c la2 ih =>
      intro lb lx ly ha hb h
      cases lb with
      | nil =>
          simp only [List.cons_append, List.nil_append, List.cons.injEq] at h
          exact absurd (h.1 ▸ List.mem_cons_self c la2) ha
      | cons d lb2 =>
          simp only [List.cons_append, List.cons.injEq] at h
          have ha2 : '/' ∉ la2 := fun hmem => ha (List.mem_cons_of_mem c hmem)
          have hb2 : '/' ∉ lb2 := fun hmem => hb (List.mem_cons_of_mem d hmem)
          obtain ⟨h1, h2⟩ := ih lb2 lx ly ha2 hb2 h.2
          exact ⟨by rw [h.1, h1], h2⟩

/-- `hasSlash s = false` read as non-membership of the slash character. -/
theorem not_mem_of_hasSlash_false {s : String} (h : hasSlash s = false) :
    '/' ∉ s.data := by
  simpa [hasSlash] using h

/-- A `type/id` concatenation always contains a slash. -/
theorem hasSlash_concat (t x : String) : hasSlash (t ++ "/" ++ x) = true := by
  have hd : (t ++ "/" ++ x).data = t.data ++ '/' :: x.data := by
    rw [stringAppendData, stringAppendData]
    rw [show ("/" : String).data = ['/'] from rfl, List.append_assoc,
      List.singleton_append]
  simp [hasSlash, hd]

/-- Slash-free prefixes make `type ++ "/" ++ id` injective in both
components. -/
theorem slashConcatEqIff (t T y x : String) (ht : hasSlash t = false)
    (hT : hasSlash T = false) :
    (t ++ "/" ++ y = T ++ "/" ++ x) ↔ (t = T ∧ y = x) := by
  constructor
  · intro h
    have hd : t.data ++ '/' :: y.data = T.data ++ '/' :: x.data := by
      have hc := congrArg String.data h
      rwa [stringAppendData, stringAppendData, stringAppendData, stringAppendData,
        show ("/" : String).data = ['/'] from rfl, List.append_assoc,
        List.singleton_append, List.append_assoc, List.singleton_append] at hc
    obtain ⟨h1, h2⟩ := listSlashSplitInj t.data T.data y.data x.data
      (not_mem_of_hasSlash_false ht) (not_mem_of_hasSlash_false hT) hd
    exact ⟨stringDataInj h1, stringDataInj h2⟩
  · rintro ⟨rfl, rfl⟩
    rfl

/-! ### Counting lemmas for `getModels` -/

/-- Every entry of the deduplicated bare list carries an id of the
input list and the restamped owner. -/
theorem dedupById_mem_ids : ∀ (l : List MEntry) (seen : List String) (e : MEntry),
    e ∈ dedupById l seen → e.id ∈ l.map (fun m => m.id) := by
  intro l
  induction l with
  | nil => intro seen e h; simp [dedupById] at h
  | cons m rest ih =>
      intro seen e h
      by_cases hs : seen.contains m.id
      · simp only [dedupById, hs, if_true] at h
        exact List.mem_cons_of_mem _ (ih seen e h)
      · simp only [dedupById, hs, Bool.false_eq_true, if_false, List.mem_cons] at h
        rcases h with h1 | h2
        · rw [h1]
          exact List.mem_cons_self _ _
        · exact List.mem_cons_of_mem _ (ih (m.id :: seen) e h2)

/-- The deduplicated bare list has exactly one entry per distinct
unseen id. -/
theorem dedupById_countP : ∀ (l : List MEntry) (seen : List String) (x : String),
    (dedupById l seen).countP (fun e => e.id == x) =
      if x ∈ seen then 0 else if x ∈ l.map (fun m => m.id) then 1 else 0 := by
  intro l
  induction l with
  | nil =>
      intro seen x
      simp [dedupById]
  | cons m rest ih =>
      intro seen x
      by_cases hs : seen.contains m.id
      · have hsmem : m.id ∈ seen := by simpa using hs
        simp only [dedupById, hs, if_true, ih]
        by_cases hx : x = m.id
        · subst hx
          simp [hsmem]
        · simp [hx, Ne.symm hx]
      · have hsmem : m.id ∉ seen := by simpa using hs
        simp only [dedupById, hs, Bool.false_eq_true, if_false, List.countP_cons, ih]
        by_cases hx : x = m.id
        · subst hx
          simp [hsmem]
        · simp [hx, Ne.symm hx]

/-- `countP` distributes over `flatMap` as a sum. -/
theorem countP_flatMap_sum (f : String → List MEntry) (p : MEntry → Bool) :
    ∀ ts : List String,
      ((ts.flatMap f).countP p) = (ts.map (fun t => (f t).countP p)).sum := by
  intro ts
  induction ts with
  | nil => rfl
  | cons a rest ih => simp [List.flatMap_cons, List.countP_append, ih]

/-- Summing a map that vanishes away from one element of a
duplicate-free list. -/
theorem sum_map_single (f : String → Nat) :
    ∀ (ts : List String) (T : String), T ∈ ts → ts.Nodup →
      (∀ t ∈ ts, t ≠ T → f t = 0) → (ts.map f).sum = f T := by
  intro ts
  induction ts with
  | nil => intro T h; simp at h
  | cons a rest ih =>
      intro T hT hnd hz
      rcases List.mem_cons.mp hT with h1 | h2
      · subst h1
        have hrest : ∀ t ∈ rest, f t = 0 := by
          intro t htr
          have hne : t ≠ T := by
            intro he
            exact (List.nodup_cons.mp hnd).1 (he ▸ htr)
          exact hz t (List.mem_cons_of_mem T htr) hne
        have : (rest.map f).sum = 0 :=
          List.sum_eq_zero (by
            intro y hy
            obtain ⟨t, htr, rfl⟩ := List.mem_map.mp hy
            exact hrest t htr)
        simp [this]
      · have hane : a ≠ T := by
          intro he
          exact (List.nodup_cons.mp hnd).1 (he ▸ h2)
        have hfa : f a = 0 := hz a (List.mem_cons_self a rest) hane
        have := ih T h2 (List.nodup_cons.mp hnd).2
          (fun t htr hne => hz t (List.mem_cons_of_mem a htr) hne)
        simp [hfa, this]

/-- `countP` respects pointwise-equal predicates. -/
theorem countP_congr_own (l : List MEntry) (p q : MEntry → Bool)
    (h : ∀ a ∈ l, p a = q a) : l.countP p = l.countP q := by
  induction l with
  | nil => rfl
  | cons a rest ih =>
      have ha := h a (List.mem_cons_self a rest)
      have hrest := fun b hb => h b (List.mem_cons_of_mem a hb)
      simp [List.countP_cons, ha, ih hrest]

/-- Every entry of the deduplicated bare list is restamped with the
`internal_server` owner. -/
theorem dedupById_owned : ∀ (l : List MEntry) (seen : List String) (e : MEntry),
    e ∈ dedupById l seen → e.owned_by = "internal_server" := by
  intro l
  induction l with
  | nil => intro seen e h; simp [dedupById] at h
  | cons m rest ih =>
      intro seen e h
      by_cases hs : seen.contains m.id
      · simp only [dedupById, hs, if_true] at h
        exact ih seen e h
      · simp only [dedupById, hs, Bool.false_eq_true, if_false, List.mem_cons] at h
        rcases h with h1 | h2
        · rw [h1]
        · exact ih (m.id :: seen) e h2

/-- `countP` of a disjunction of elementwise-disjoint predicates is the
sum of the two counts. -/
theorem countP_or_disjoint (l : List MEntry) (p q : MEntry → Bool)
    (h : ∀ a ∈ l, ¬(p a = true ∧ q a = true)) :
    l.countP (fun a => p a || q a) = l.countP p + l.countP q := by
  induction l with
  | nil => rfl
  | cons a rest ih =>
      have ha := h a (List.mem_cons_self a rest)
      have hrest := fun b hb => h b (List.mem_cons_of_mem a hb)
      simp only [List.countP_cons, ih hrest]
      cases hp : p a <;> cases hq : q a <;> simp_all <;> omega

/-- Claim C8, amended: in a Worker's model listing each registered
model id appears once as the bare id with `owned_by`
`"internal_server"` and, per adapter type that registers it, once in
qualified `type/id` form with `owned_by` that type.  For a merge
worker the bare entries are deduplicated across members while the
qualified entries are not, so an id registered by k members appears
1 + k times — "exactly twice" only when a single member registers
it.  For a single (non-merge) worker the id appears exactly twice:
the bare entry with `owned_by` `"internal_server"` and the qualified
entry with `owned_by` the worker's adapter type.  Hypotheses:
adapter types and registered ids contain no slash and id lists and
the member list are duplicate-free. -/
theorem c8_amended_model_listing
    (w : WorkerCfg) (reg : Registry) (x t0 : String)
    (w2 : WorkerCfg) (reg2 : Registry) (x2 : String)
    (hm : w.type = "merge")
    (htypes : ∀ t ∈ w.mergeTypes, hasSlash t = false)
    (hids : ∀ t ∈ w.mergeTypes, ∀ e ∈ dataOf reg t, hasSlash e.id = false)
    (hnodup : ∀ t ∈ w.mergeTypes, ((dataOf reg t).map (fun m => m.id)).Nodup)
    (hntypes : w.mergeTypes.Nodup)
    (ht0 : t0 ∈ w.mergeTypes)
    (hx : x ∈ (dataOf reg t0).map (fun m => m.id))
    (hm2 : w2.type ≠ "merge")
    (htype2 : hasSlash w2.type = false)
    (hids2 : ∀ e ∈ dataOf reg2 w2.type, hasSlash e.id = false)
    (hnodup2 : ((dataOf reg2 w2.type).map (fun m => m.id)).Nodup)
    (hx2 : x2 ∈ (dataOf reg2 w2.type).map (fun m => m.id)) :
    ((getModels w reg).countP (fun e => e.id == x) = 1 ∧
      (getModels w reg).countP
        (fun e => e.id == x && e.owned_by == "internal_server") = 1 ∧
      ∀ T ∈ w.mergeTypes,
        (getModels w reg).countP (fun e => e.id == (T ++ "/" ++ x)) =
          (if x ∈ (dataOf reg T).map (fun m => m.id) then 1 else 0) ∧
        (getModels w reg).countP
          (fun e => e.id == (T ++ "/" ++ x) && e.owned_by == T) =
          (if x ∈ (dataOf reg T).map (fun m => m.id) then 1 else 0)) ∧
      ((getModels w2 reg2).countP (fun e => e.id == x2) = 1 ∧
        (getModels w2 reg2).countP
          (fun e => e.id == x2 && e.owned_by == "internal_server") = 1 ∧
        (getModels w2 reg2).countP
          (fun e => e.id == (w2.type ++ "/" ++ x2)) = 1 ∧
        (getModels w2 reg2).countP
          (fun e => e.id == (w2.type ++ "/" ++ x2) && e.owned_by == w2.type) = 1 ∧
        (getModels w2 reg2).countP
          (fun e => e.id == x2 || e.id == (w2.type ++ "/" ++ x2)) = 2) := by
  have hxs : hasSlash x = false := by
    obtain ⟨e, he, heid⟩ := List.mem_map.mp hx
    exact heid ▸ hids t0 ht0 e he
  have hgm : getModels w reg =
      dedupById (w.mergeTypes.flatMap (fun t => dataOf reg t)) [] ++
        w.mergeTypes.flatMap (fun t => (dataOf reg t).map (fun m =>
          { m with id := t ++ "/" ++ m.id, owned_by := t })) := by
    simp [getModels, hm]
  have hbare1 : (dedupById (w.mergeTypes.flatMap (fun t => dataOf reg t)) []).countP
      (fun e => e.id == x) = 1 := by
    rw [dedupById_countP]
    have hxflat : x ∈ (w.mergeTypes.flatMap (fun t => dataOf reg t)).map
        (fun m => m.id) := by
      obtain ⟨e, he, heid⟩ := List.mem_map.mp hx
      exact List.mem_map.mpr ⟨e, List.mem_flatMap.mpr ⟨t0, ht0, he⟩, heid⟩
    simp [hxflat]
  have hbare1o : (dedupById (w.mergeTypes.flatMap (fun t => dataOf reg t)) []).countP
      (fun e => e.id == x && e.owned_by == "internal_server") = 1 := by
    rw [countP_congr_own _ _ (fun e => e.id == x) (by
      intro e he
      rw [dedupById_owned _ [] e he]
      simp)]
    exact hbare1
  have hqual1 : (w.mergeTypes.flatMap (fun t => (dataOf reg t).map (fun m =>
      { m with id := t ++ "/" ++ m.id, owned_by := t }))).countP
      (fun e => e.id == x) = 0 := by
    rw [List.countP_eq_zero]
    intro e he
    obtain ⟨t, ht, he2⟩ := List.mem_flatMap.mp he
    obtain ⟨m, hmem, heq⟩ := List.mem_map.mp he2
    simp only [beq_iff_eq]
    intro hix
    rw [← heq] at hix
    have : hasSlash x = true := by
      rw [← hix]
      exact hasSlash_concat t m.id
    rw [this] at hxs
    simp at hxs
  have hqual1o : (w.mergeTypes.flatMap (fun t => (dataOf reg t).map (fun m =>
      { m with id := t ++ "/" ++ m.id, owned_by := t }))).countP
      (fun e => e.id == x && e.owned_by == "internal_server") = 0 := by
    rw [List.countP_eq_zero]
    intro e he
    obtain ⟨t, ht, he2⟩ := List.mem_flatMap.mp he
    obtain ⟨m, hmem, heq⟩ := List.mem_map.mp he2
    simp only [Bool.and_eq_true, beq_iff_eq]
    rintro ⟨hix, _⟩
    rw [← heq] at hix
    have : hasSlash x = true := by
      rw [← hix]
      exact hasSlash_concat t m.id
    rw [this] at hxs
    simp at hxs
  refine ⟨⟨?_, ?_, ?_⟩, ?_⟩
  · rw [hgm, List.countP_append, hbare1, hqual1]
  · rw [hgm, List.countP_append, hbare1o, hqual1o]
  · intro T hT
    have hbare0 : (dedupById (w.mergeTypes.flatMap (fun t => dataOf reg t)) []).countP
        (fun e => e.id == (T ++ "/" ++ x)) = 0 := by
      rw [List.countP_eq_zero]
      intro e he
      have hid := dedupById_mem_ids _ [] e he
      obtain ⟨m2, hm2m, hid2⟩ := List.mem_map.mp hid
      obtain ⟨t2, ht2, hm2b⟩ := List.mem_flatMap.mp hm2m
      have hslf : hasSlash e.id = false := hid2 ▸ hids t2 ht2 m2 hm2b
      simp only [beq_iff_eq]
      intro heq
      rw [heq, hasSlash_concat] at hslf
      simp at hslf
    have hbare0o : (dedupById (w.mergeTypes.flatMap (fun t => dataOf reg t)) []).countP
        (fun e => e.id == (T ++ "/" ++ x) && e.owned_by == T) = 0 := by
      rw [List.countP_eq_zero]
      intro e he
      have hid := dedupById_mem_ids _ [] e he
      obtain ⟨m2, hm2m, hid2⟩ := List.mem_map.mp hid
      obtain ⟨t2, ht2, hm2b⟩ := List.mem_flatMap.mp hm2m
      have hslf : hasSlash e.id = false := hid2 ▸ hids t2 ht2 m2 hm2b
      simp only [Bool.and_eq_true, beq_iff_eq]
      rintro ⟨heq, _⟩
      rw [heq, hasSlash_concat] at hslf
      simp at hslf
    have hqualT : (w.mergeTypes.flatMap (fun t => (dataOf reg t).map (fun m =>
        { m with id := t ++ "/" ++ m.id, owned_by := t }))).countP
        (fun e => e.id == (T ++ "/" ++ x)) =
        (if x ∈ (dataOf reg T).map (fun m => m.id) then 1 else 0) := by
      rw [countP_flatMap_sum]
      have hpt : ∀ t ∈ w.mergeTypes,
          (((dataOf reg t).map (fun m =>
            { m with id := t ++ "/" ++ m.id, owned_by := t })).countP
            (fun e => e.id == (T ++ "/" ++ x))) =
          (fun t2 => if t2 = T then
            (if x ∈ (dataOf reg T).map (fun m => m.id) then 1 else 0) else 0) t := by
        intro t ht
        rw [List.countP_map]
        by_cases htT : t = T
        · subst htT
          have hcong : (dataOf reg t).countP
              ((fun e => e.id == (t ++ "/" ++ x)) ∘ (fun m =>
                { m with id := t ++ "/" ++ m.id, owned_by := t })) =
              (dataOf reg t).countP (fun m => m.id == x) := by
            apply countP_congr_own
            intro m hmem
            have hiff := slashConcatEqIff t t m.id x (htypes t ht) (htypes t ht)
            by_cases hq : m.id = x
            · simp only [Function.comp_apply]
              simp [hq]
            · have hne : ¬(t ++ "/" ++ m.id = t ++ "/" ++ x) := by
                rw [hiff]
                rintro ⟨_, h2⟩
                exact hq h2
              simp only [Function.comp_apply]
              simp [hq, hne]
          rw [hcong]
          have hcnt : (dataOf reg t).countP (fun m => m.id == x) =
              ((dataOf reg t).map (fun m => m.id)).count x := by
            rw [show ((dataOf reg t).map (fun m => m.id)).count x =
              ((dataOf reg t).map (fun m => m.id)).countP (fun i => i == x) from rfl,
              List.countP_map]
            rfl
          rw [hcnt]
          by_cases hmemx : x ∈ (dataOf reg t).map (fun m => m.id)
          · simp [hmemx, List.count_eq_one_of_mem (hnodup t ht) hmemx]
          · simp [hmemx, List.count_eq_zero.mpr hmemx]
        · have : (dataOf reg t).countP
              ((fun e => e.id == (T ++ "/" ++ x)) ∘ (fun m =>
                { m with id := t ++ "/" ++ m.id, owned_by := t })) = 0 := by
            rw [List.countP_eq_zero]
            intro m hmem
            simp only [Function.comp_apply, beq_iff_eq]
            rw [slashConcatEqIff t T m.id x (htypes t ht) (htypes T hT)]
            rintro ⟨h1, _⟩
            exact htT h1
          rw [this]
          simp [htT]
      rw [List.map_congr_left hpt]
      rw [sum_map_single _ w.mergeTypes T hT hntypes (by
        intro t ht hne
        simp [hne])]
      simp
    have hqualTo : (w.mergeTypes.flatMap (fun t => (dataOf reg t).map (fun m =>
        { m with id := t ++ "/" ++ m.id, owned_by := t }))).countP
        (fun e => e.id == (T ++ "/" ++ x) && e.owned_by == T) =
        (if x ∈ (dataOf reg T).map (fun m => m.id) then 1 else 0) := by
      rw [countP_flatMap_sum]
      have hpt : ∀ t ∈ w.mergeTypes,
          (((dataOf reg t).map (fun m =>
            { m with id := t ++ "/" ++ m.id, owned_by := t })).countP
            (fun e => e.id == (T ++ "/" ++ x) && e.owned_by == T)) =
          (fun t2 => if t2 = T then
            (if x ∈ (dataOf reg T).map (fun m => m.id) then 1 else 0) else 0) t := by
        intro t ht
        rw [List.countP_map]
        by_cases htT : t = T
        · subst htT
          have hcong : (dataOf reg t).countP
              ((fun e => e.id == (t ++ "/" ++ x) && e.owned_by == t) ∘ (fun m =>
                { m with id := t ++ "/" ++ m.id, owned_by := t })) =
              (dataOf reg t).countP (fun m => m.id == x) := by
            apply countP_congr_own
            intro m hmem
            have hiff := slashConcatEqIff t t m.id x (htypes t ht) (htypes t ht)
            by_cases hq : m.id = x
            · simp only [Function.comp_apply]
              simp [hq]
            · have hne : ¬(t ++ "/" ++ m.id = t ++ "/" ++ x) := by
                rw [hiff]
                rintro ⟨_, h2⟩
                exact hq h2
              simp only [Function.comp_apply]
              simp [hq, hne]
          rw [hcong]
          have hcnt : (dataOf reg t).countP (fun m => m.id == x) =
              ((dataOf reg t).map (fun m => m.id)).count x := by
            rw [show ((dataOf reg t).map (fun m => m.id)).count x =
              ((dataOf reg t).map (fun m => m.id)).countP (fun i => i == x) from rfl,
              List.countP_map]
            rfl
          rw [hcnt]
          by_cases hmemx : x ∈ (dataOf reg t).map (fun m => m.id)
          · simp [hmemx, List.count_eq_one_of_mem (hnodup t ht) hmemx]
          · simp [hmemx, List.count_eq_zero.mpr hmemx]
        · have : (dataOf reg t).countP
              ((fun e => e.id == (T ++ "/" ++ x) && e.owned_by == T) ∘ (fun m =>
                { m with id := t ++ "/" ++ m.id, owned_by := t })) = 0 := by
            rw [List.countP_eq_zero]
            intro m hmem
            simp only [Function.comp_apply, Bool.and_eq_true, beq_iff_eq]
            rintro ⟨_, h2⟩
            exact htT h2
          rw [this]
          simp [htT]
      rw [List.map_congr_left hpt]
      rw [sum_map_single _ w.mergeTypes T hT hntypes (by
        intro t ht hne
        simp [hne])]
      simp
    refine ⟨?_, ?_⟩
    · rw [hgm, List.countP_append, hbare0, hqualT]
      simp
    · rw [hgm, List.countP_append, hbare0o, hqualTo]
      simp
  · -- single (non-merge) worker branch of getModels
    have hm2b : (w2.type == "merge") = false := by simp [hm2]
    have hx2s : hasSlash x2 = false := by
      obtain ⟨e, he, heid⟩ := List.mem_map.mp hx2
      exact heid ▸ hids2 e he
    have hgs : getModels w2 reg2 =
        (dataOf reg2 w2.type).map (fun m => { m with owned_by := "internal_server" }) ++
          (dataOf reg2 w2.type).map (fun m =>
            { m with id := w2.type ++ "/" ++ m.id, owned_by := w2.type }) := by
      simp [getModels, hm2b]
    have hcnt1 : (dataOf reg2 w2.type).countP (fun m => m.id == x2) = 1 := by
      have hcnt0 : (dataOf reg2 w2.type).countP (fun m => m.id == x2) =
          ((dataOf reg2 w2.type).map (fun m => m.id)).count x2 := by
        rw [show ((dataOf reg2 w2.type).map (fun m => m.id)).count x2 =
          ((dataOf reg2 w2.type).map (fun m => m.id)).countP (fun i => i == x2) from rfl,
          List.countP_map]
        rfl
      rw [hcnt0]
      exact List.count_eq_one_of_mem hnodup2 hx2
    have sBareId : ((dataOf reg2 w2.type).map
        (fun m => { m with owned_by := "internal_server" })).countP
        (fun e => e.id == x2) = 1 := by
      rw [List.countP_map]
      have hcong : (dataOf reg2 w2.type).countP
          ((fun e => e.id == x2) ∘ (fun m => { m with owned_by := "internal_server" })) =
          (dataOf reg2 w2.type).countP (fun m => m.id == x2) := by
        apply countP_congr_own
        intro m hmem
        rfl
      rw [hcong]
      exact hcnt1
    have sBareIdo : ((dataOf reg2 w2.type).map
        (fun m => { m with owned_by := "internal_server" })).countP
        (fun e => e.id == x2 && e.owned_by == "internal_server") = 1 := by
      rw [List.countP_map]
      have hcong : (dataOf reg2 w2.type).countP
          ((fun e => e.id == x2 && e.owned_by == "internal_server") ∘
            (fun m => { m with owned_by := "internal_server" })) =
          (dataOf reg2 w2.type).countP (fun m => m.id == x2) := by
        apply countP_congr_own
        intro m hmem
        simp
      rw [hcong]
      exact hcnt1
    have sQualId0 : ((dataOf reg2 w2.type).map (fun m =>
        { m with id := w2.type ++ "/" ++ m.id, owned_by := w2.type })).countP
        (fun e => e.id == x2) = 0 := by
      rw [List.countP_eq_zero]
      intro e he
      obtain ⟨m, hmem, heq⟩ := List.mem_map.mp he
      simp only [beq_iff_eq]
      intro hix
      rw [← heq] at hix
      have : hasSlash x2 = true := by
        rw [← hix]
        exact hasSlash_concat w2.type m.id
      rw [this] at hx2s
      simp at hx2s
    have sQualIdo0 : ((dataOf reg2 w2.type).map (fun m =>
        { m with id := w2.type ++ "/" ++ m.id, owned_by := w2.type })).countP
        (fun e => e.id == x2 && e.owned_by == "internal_server") = 0 := by
      rw [List.countP_eq_zero]
      intro e he
      obtain ⟨m, hmem, heq⟩ := List.mem_map.mp he
      simp only [Bool.and_eq_true, beq_iff_eq]
      rintro ⟨hix, _⟩
      rw [← heq] at hix
      have : hasSlash x2 = true := by
        rw [← hix]
        exact hasSlash_concat w2.type m.id
      rw [this] at hx2s
      simp at hx2s
    have sBareQ0 : ((dataOf reg2 w2.type).map
        (fun m => { m with owned_by := "internal_server" })).countP
        (fun e => e.id == (w2.type ++ "/" ++ x2)) = 0 := by
      rw [List.countP_eq_zero]
      intro e he
      obtain ⟨m, hmem, heq⟩ := List.mem_map.mp he
      have hslf : hasSlash e.id = false := by
        rw [← heq]
        exact hids2 m hmem
      simp only [beq_iff_eq]
      intro hix
      rw [hix, hasSlash_concat] at hslf
      simp at hslf
    have sBareQo0 : ((dataOf reg2 w2.type).map
        (fun m => { m with owned_by := "internal_server" })).countP
        (fun e => e.id == (w2.type ++ "/" ++ x2) && e.owned_by == w2.type) = 0 := by
      rw [List.countP_eq_zero]
      intro e he
      obtain ⟨m, hmem, heq⟩ := List.mem_map.mp he
      have hslf : hasSlash e.id = false := by
        rw [← heq]
        exact hids2 m hmem
      simp only [Bool.and_eq_true, beq_iff_eq]
      rintro ⟨hix, _⟩
      rw [hix, hasSlash_concat] at hslf
      simp at hslf
    have sQualQ : ((dataOf reg2 w2.type).map (fun m =>
        { m with id := w2.type ++ "/" ++ m.id, owned_by := w2.type })).countP
        (fun e => e.id == (w2.type ++ "/" ++ x2)) = 1 := by
      rw [List.countP_map]
      have hcong : (dataOf reg2 w2.type).countP
          ((fun e => e.id == (w2.type ++ "/" ++ x2)) ∘ (fun m =>
            { m with id := w2.type ++ "/" ++ m.id, owned_by := w2.type })) =
          (dataOf reg2 w2.type).countP (fun m => m.id == x2) := by
        apply countP_congr_own
        intro m hmem
        have hiff := slashConcatEqIff w2.type w2.type m.id x2 htype2 htype2
        by_cases hq : m.id = x2
        · simp only [Function.comp_apply]
          simp [hq]
        · have hne : ¬(w2.type ++ "/" ++ m.id = w2.type ++ "/" ++ x2) := by
            rw [hiff]
            rintro ⟨_, h2⟩
            exact hq h2
          simp only [Function.comp_apply]
          simp [hq, hne]
      rw [hcong]
      exact hcnt1
    have sQualQo : ((dataOf reg2 w2.type).map (fun m =>
        { m with id := w2.type ++ "/" ++ m.id, owned_by := w2.type })).countP
        (fun e => e.id == (w2.type ++ "/" ++ x2) && e.owned_by == w2.type) = 1 := by
      rw [List.countP_map]
      have hcong : (dataOf reg2 w2.type).countP
          ((fun e => e.id == (w2.type ++ "/" ++ x2) && e.owned_by == w2.type) ∘
            (fun m =>
              { m with id := w2.type ++ "/" ++ m.id, owned_by := w2.type })) =
          (dataOf reg2 w2.type).countP (fun m => m.id == x2) := by
        apply countP_congr_own
        intro m hmem
        have hiff := slashConcatEqIff w2.type w2.type m.id x2 htype2 htype2
        by_cases hq : m.id = x2
        · simp only [Function.comp_apply]
          simp [hq]
        · have hne : ¬(w2.type ++ "/" ++ m.id = w2.type ++ "/" ++ x2) := by
            rw [hiff]
            rintro ⟨_, h2⟩
            exact hq h2
          simp only [Function.comp_apply]
          simp [hq, hne]
      rw [hcong]
      exact hcnt1
    have hTot1 : (getModels w2 reg2).countP (fun e => e.id == x2) = 1 := by
      rw [hgs, List.countP_append, sBareId, sQualId0]
    have hTotQ : (getModels w2 reg2).countP
        (fun e => e.id == (w2.type ++ "/" ++ x2)) = 1 := by
      rw [hgs, List.countP_append, sBareQ0, sQualQ]
    refine ⟨hTot1, ?_, hTotQ, ?_, ?_⟩
    · rw [hgs, List.countP_append, sBareIdo, sQualIdo0]
    · rw [hgs, List.countP_append, sBareQo0, sQualQo]
    · rw [countP_or_disjoint _ _ _ (by
        intro e he
        simp only [beq_iff_eq]
        rintro ⟨h1, h2⟩
        have : x2 = w2.type ++ "/" ++ x2 := h1.symm.trans h2
        have hsl : hasSlash x2 = true := by
          rw [this]
          exact hasSlash_concat w2.type x2
        rw [hsl] at hx2s
        simp at hx2s)]
      rw [hTot1, hTotQ]

/-- Witness for amended C8: a two-member merge worker sharing the id
`"m"` (bare entry once with `internal_server`, one qualified entry
per member) and a single worker of type `"A"` (the id appears
exactly twice, once bare with `internal_server` and once qualified
with owner `"A"`). -/
theorem c8_amended_model_listing_witness :
    (wMergeAB.type = "merge" ∧ wMergeAB.mergeTypes.Nodup ∧
      "A" ∈ wMergeAB.mergeTypes ∧
      "m" ∈ (dataOf regDup "A").map (fun m => m.id) ∧
      wSingleA.type ≠ "merge" ∧
      "m" ∈ (dataOf regDup wSingleA.type).map (fun m => m.id)) ∧
      (((getModels wMergeAB regDup).countP (fun e => e.id == "m") = 1 ∧
        (getModels wMergeAB regDup).countP
          (fun e => e.id == "m" && e.owned_by == "internal_server") = 1 ∧
        ∀ T ∈ wMergeAB.mergeTypes,
          (getModels wMergeAB regDup).countP (fun e => e.id == (T ++ "/" ++ "m")) =
            (if "m" ∈ (dataOf regDup T).map (fun m => m.id) then 1 else 0) ∧
          (getModels wMergeAB regDup).countP
            (fun e => e.id == (T ++ "/" ++ "m") && e.owned_by == T) =
            (if "m" ∈ (dataOf regDup T).map (fun m => m.id) then 1 else 0)) ∧
        ((getModels wSingleA regDup).countP (fun e => e.id == "m") = 1 ∧
          (getModels wSingleA regDup).countP
            (fun e => e.id == "m" && e.owned_by == "internal_server") = 1 ∧
          (getModels wSingleA regDup).countP
            (fun e => e.id == (wSingleA.type ++ "/" ++ "m")) = 1 ∧
          (getModels wSingleA regDup).countP
            (fun e => e.id == (wSingleA.type ++ "/" ++ "m") &&
              e.owned_by == wSingleA.type) = 1 ∧
          (getModels wSingleA regDup).countP
            (fun e => e.id == "m" || e.id == (wSingleA.type ++ "/" ++ "m")) = 2)) :=
  ⟨⟨rfl, by decide, by decide, by decide, by decide, by decide⟩,
    c8_amended_model_listing wMergeAB regDup "m" "A" wSingleA regDup "m" rfl
      (by decide) (by decide) (by decide) (by decide) (by decide) (by decide)
      (by decide) (by decide) (by decide) (by decide) (by decide)⟩

end WebAI
